import Mathlib

/-!
Verification of the scorgasmatron table-tennis score keeper.

Shallow embedding of:
  * `table_tennis.hpp` — the match scoring engine (game state, serve
    computation, win detection, bounded undo history);
  * `avr_io.hpp` — the debounced button (`avr_button::check`) and the
    multiplexed seven-segment display renderer
    (`avr_seven_segment_display::display_decimal` / `display_custom`).

Integers in the C++ sources that only ever hold non-negative values
(scores, games won, history index, digit counts) are modelled as `Nat`;
the `uint8_t` counter of the debouncer and the `uint8_t` display value are
modelled with explicit `% 256` wrap / `< 256` domain restrictions where the
width matters.
-/

/-- `table_tennis::game_mode`: games to eleven or to twenty one points. -/
inductive game_mode
  | to_11
  | to_21
deriving DecidableEq

/-- `table_tennis::serve_player`: player one or player two. -/
inductive serve_player
  | p1
  | p2
deriving DecidableEq

/-- `table_tennis::game_state`: all data of a match, with the C++ default
member initializers (all counters zero, `first_serve = p1`, `mode = to_11`). -/
structure game_state where
  p1_games_won : Nat := 0
  p1_score : Nat := 0
  p2_games_won : Nat := 0
  p2_score : Nat := 0
  first_serve : serve_player := serve_player.p1
  mode : game_mode := game_mode.to_11
deriving DecidableEq

/-- The default-constructed game state. -/
def initial_state : game_state := {}

/-- The local `deuce_points` of `table_tennis::deuce`:
10 for eleven-point games, 20 for twenty-one-point games. -/
def deuce_points : game_mode → Nat
  | game_mode.to_11 => 10
  | game_mode.to_21 => 20

/-- The local `win` of `table_tennis::check_for_win`:
11 for eleven-point games, 21 for twenty-one-point games. -/
def win_points : game_mode → Nat
  | game_mode.to_11 => 11
  | game_mode.to_21 => 21

/-- `table_tennis::deuce` (a method reading `_state`): both scores have
reached the mode's deuce threshold. -/
def deuce (s : game_state) : Prop :=
  deuce_points s.mode ≤ s.p1_score ∧ deuce_points s.mode ≤ s.p2_score

instance (s : game_state) : Decidable (deuce s) :=
  inferInstanceAs (Decidable (_ ≤ _ ∧ _ ≤ _))

/-- `table_tennis::serve` (a method reading `_state`): serve interval is 1 in
deuce, else 2 (to 11) or 5 (to 21); the players alternate serving every
interval starting from `first_serve`. -/
def serve (s : game_state) : serve_player :=
  let serve_interval : Nat :=
    if deuce s then 1
    else match s.mode with | game_mode.to_11 => 2 | game_mode.to_21 => 5
  let num_intervals := (s.p1_score + s.p2_score) / serve_interval
  if num_intervals % 2 = 0 then
    match s.first_serve with
    | serve_player.p1 => serve_player.p1
    | serve_player.p2 => serve_player.p2
  else
    match s.first_serve with
    | serve_player.p1 => serve_player.p2
    | serve_player.p2 => serve_player.p1

/-- `table_tennis::check_for_win` (a method mutating `_state`): in deuce a
player two points ahead wins; otherwise a player reaching the mode's target
wins.  On a win that player's `games_won` is incremented and both scores are
reset to zero. -/
def check_for_win (s : game_state) : game_state :=
  if deuce s then
    if s.p2_score + 2 ≤ s.p1_score then
      { s with p1_games_won := s.p1_games_won + 1, p1_score := 0, p2_score := 0 }
    else if s.p1_score + 2 ≤ s.p2_score then
      { s with p2_games_won := s.p2_games_won + 1, p1_score := 0, p2_score := 0 }
    else s
  else
    if win_points s.mode ≤ s.p1_score then
      { s with p1_games_won := s.p1_games_won + 1, p1_score := 0, p2_score := 0 }
    else if win_points s.mode ≤ s.p2_score then
      { s with p2_games_won := s.p2_games_won + 1, p1_score := 0, p2_score := 0 }
    else s

/-- The `_state.pX_score++` step of `table_tennis::p1_score` / `p2_score`. -/
def add_point : serve_player → game_state → game_state
  | serve_player.p1, s => { s with p1_score := s.p1_score + 1 }
  | serve_player.p2, s => { s with p2_score := s.p2_score + 1 }

/-- `table_tennis::MAX_UNDO`, the capacity of the history array. -/
def MAX_UNDO : Nat := 32

/-- The `table_tennis` object: current state plus the undo history.
The C++ array `_history[MAX_UNDO]` together with `_history_index` is modelled
as the list of its live entries, oldest first (`_history_index = length - 1`,
the empty list being index `-1`). -/
structure table_tennis where
  _state : game_state
  _history : List game_state
deriving DecidableEq

/-- A freshly constructed `table_tennis` object. -/
def tt_init : table_tennis := { _state := initial_state, _history := [] }

/-- `table_tennis::save_state`: when the history is full the oldest entry is
dropped (the shift-down loop), then the current state is appended as newest. -/
def table_tennis.save_state (t : table_tennis) : table_tennis :=
  let h := if t._history.length = MAX_UNDO then t._history.tail else t._history
  { t with _history := h ++ [t._state] }

/-- `table_tennis::undo`: if the history is non-empty, restore the newest
entry as the whole game state and drop it; otherwise do nothing. -/
def table_tennis.undo (t : table_tennis) : table_tennis :=
  match t._history.getLast? with
  | some s => { _state := s, _history := t._history.dropLast }
  | none => t

/-- `table_tennis::p1_score`: save the state, increment player one's score,
check for a win. -/
def table_tennis.p1_score (t : table_tennis) : table_tennis :=
  let t := t.save_state
  { t with _state := check_for_win (add_point serve_player.p1 t._state) }

/-- `table_tennis::p2_score`: save the state, increment player two's score,
check for a win. -/
def table_tennis.p2_score (t : table_tennis) : table_tennis :=
  let t := t.save_state
  { t with _state := check_for_win (add_point serve_player.p2 t._state) }

/-- `score_point(X)` of the spec: dispatch to `p1_score()` / `p2_score()`. -/
def score_point : serve_player → table_tennis → table_tennis
  | serve_player.p1, t => t.p1_score
  | serve_player.p2, t => t.p2_score

/-- `table_tennis::set_game_mode`: takes effect only when both scores are 0. -/
def table_tennis.set_game_mode (t : table_tennis) (mode : game_mode) : table_tennis :=
  if t._state.p1_score = 0 ∧ t._state.p2_score = 0 then
    { t with _state := { t._state with mode := mode } }
  else t

/-- `table_tennis::set_first_serve`: takes effect only when both scores
are 0. -/
def table_tennis.set_first_serve (t : table_tennis) (first_serve_player : serve_player) :
    table_tennis :=
  if t._state.p1_score = 0 ∧ t._state.p2_score = 0 then
    { t with _state := { t._state with first_serve := first_serve_player } }
  else t

/-- The other player. -/
def other_player : serve_player → serve_player
  | serve_player.p1 => serve_player.p2
  | serve_player.p2 => serve_player.p1

/-- A player's `games_won` field. -/
def games_won : serve_player → game_state → Nat
  | serve_player.p1, s => s.p1_games_won
  | serve_player.p2, s => s.p2_games_won

/-- A player's score field. -/
def score_of : serve_player → game_state → Nat
  | serve_player.p1, s => s.p1_score
  | serve_player.p2, s => s.p2_score

/-- The spec's win condition for player `X` in state `s`: in deuce a lead of
at least two points, otherwise having reached the mode's target. -/
def win_condition (X : serve_player) (s : game_state) : Prop :=
  (deuce s ∧ score_of (other_player X) s + 2 ≤ score_of X s) ∨
  (¬ deuce s ∧ win_points s.mode ≤ score_of X s)

instance (X : serve_player) (s : game_state) : Decidable (win_condition X s) :=
  inferInstanceAs (Decidable (_ ∨ _))

/-- Basic lemma: `save_state` does not change the current game state. -/
theorem save_state_state (t : table_tennis) : t.save_state._state = t._state := rfl

/-- The game-state effect of `score_point`. -/
theorem score_point_state (X : serve_player) (t : table_tennis) :
    (score_point X t)._state = check_for_win (add_point X t._state) := by
  cases X <;> rfl

/-- The history effect of `score_point`: eviction when full, then append the
pre-call state as newest entry. -/
theorem score_point_history (X : serve_player) (t : table_tennis) :
    (score_point X t)._history =
      (if t._history.length = MAX_UNDO then t._history.tail else t._history)
        ++ [t._state] := by
  cases X <;> rfl

/-- C2: for every state of the engine and either player `X`, `score_point(X)`
immediately followed by `undo()` restores the observable game state (scores,
games won, first serve, mode) exactly, including when the point won a game. -/
theorem C2_score_then_undo_roundtrip (t : table_tennis) (X : serve_player) :
    (score_point X t).undo._state = t._state := by
  have h := score_point_history X t
  unfold table_tennis.undo
  rw [h, List.getLast?_concat]

/-- Invariant of reachable game states: in deuce the scores differ by at most
one; outside deuce both scores are below the mode's target. -/
def score_inv (s : game_state) : Prop :=
  (deuce s → s.p1_score ≤ s.p2_score + 1 ∧ s.p2_score ≤ s.p1_score + 1)
  ∧ (¬ deuce s → s.p1_score < win_points s.mode ∧ s.p2_score < win_points s.mode)

instance (s : game_state) : Decidable (score_inv s) :=
  inferInstanceAs (Decidable (_ ∧ _))

/-- A game state with both scores zero satisfies the invariant. -/
theorem score_inv_zero (s : game_state) (h1 : s.p1_score = 0) (h2 : s.p2_score = 0) :
    score_inv s := by
  obtain ⟨gw1, sc1, gw2, sc2, fs, mode⟩ := s
  cases mode <;>
    simp only [score_inv, deuce, deuce_points, win_points] at * <;> omega

/-- One scoring step preserves the invariant. -/
theorem score_inv_step (X : serve_player) (s : game_state) (hinv : score_inv s) :
    score_inv (check_for_win (add_point X s)) := by
  obtain ⟨gw1, sc1, gw2, sc2, fs, mode⟩ := s
  cases X <;> cases mode <;>
    simp only [score_inv, add_point, check_for_win, deuce, deuce_points,
      win_points] at * <;>
    split_ifs at * <;> simp_all <;> omega

/-- Behaviour of `check_for_win` after one increment, on states satisfying the
invariant: the scoring player's `games_won` is incremented (with both scores
reset) exactly when their win condition holds in the incremented state, and
when it does not hold the whole state is left as the incremented state. -/
theorem check_for_win_spec (X : serve_player) (s : game_state) (hinv : score_inv s) :
    ((games_won X (check_for_win (add_point X s)) = games_won X s + 1
        ∧ (check_for_win (add_point X s)).p1_score = 0
        ∧ (check_for_win (add_point X s)).p2_score = 0)
      ↔ win_condition X (add_point X s))
    ∧ (¬ win_condition X (add_point X s) →
        (check_for_win (add_point X s)).p1_games_won = s.p1_games_won
        ∧ (check_for_win (add_point X s)).p2_games_won = s.p2_games_won
        ∧ (check_for_win (add_point X s)).p1_score = (add_point X s).p1_score
        ∧ (check_for_win (add_point X s)).p2_score = (add_point X s).p2_score) := by
  obtain ⟨gw1, sc1, gw2, sc2, fs, mode⟩ := s
  cases X <;> cases mode <;>
    simp only [score_inv, add_point, check_for_win, deuce, deuce_points,
      win_points, games_won, score_of, other_player, win_condition,
      apply_ite game_state.p1_games_won, apply_ite game_state.p2_games_won,
      apply_ite game_state.p1_score, apply_ite game_state.p2_score] at hinv ⊢ <;>
    split_ifs <;> omega

/-- Reachable `table_tennis` objects: everything obtainable from the freshly
constructed engine by point scoring, undo and the two configuration setters. -/
inductive Reachable : table_tennis → Prop
  | init : Reachable tt_init
  | score1 {t : table_tennis} : Reachable t → Reachable t.p1_score
  | score2 {t : table_tennis} : Reachable t → Reachable t.p2_score
  | undo_step {t : table_tennis} : Reachable t → Reachable t.undo
  | mode_step {t : table_tennis} (m : game_mode) :
      Reachable t → Reachable (t.set_game_mode m)
  | first_step {t : table_tennis} (p : serve_player) :
      Reachable t → Reachable (t.set_first_serve p)

/-- Helper: the element returned by `getLast?` is a member of the list. -/
theorem mem_of_getLast? {α : Type} {l : List α} {a : α}
    (h : l.getLast? = some a) : a ∈ l := by
  induction l with
  | nil => simp at h
  | cons x xs ih =>
    cases xs with
    | nil => simp_all
    | cons y ys =>
      rw [List.getLast?_cons_cons] at h
      exact List.mem_cons_of_mem x (ih h)

/-- Every reachable engine satisfies the score invariant, on the current state
and on every history entry. -/
theorem reachable_inv {t : table_tennis} (h : Reachable t) :
    score_inv t._state ∧ ∀ s ∈ t._history, score_inv s := by
  induction h with
  | init => exact ⟨by decide, by simp [tt_init]⟩
  | score1 ht ih =>
    refine ⟨score_inv_step serve_player.p1 _ ih.1, ?_⟩
    intro s hs
    simp only [table_tennis.p1_score, table_tennis.save_state] at hs
    rcases List.mem_append.mp hs with hs | hs
    · split at hs
      · exact ih.2 s ((List.tail_sublist _).subset hs)
      · exact ih.2 s hs
    · simp only [List.mem_singleton] at hs
      exact hs ▸ ih.1
  | score2 ht ih =>
    refine ⟨score_inv_step serve_player.p2 _ ih.1, ?_⟩
    intro s hs
    simp only [table_tennis.p2_score, table_tennis.save_state] at hs
    rcases List.mem_append.mp hs with hs | hs
    · split at hs
      · exact ih.2 s ((List.tail_sublist _).subset hs)
      · exact ih.2 s hs
    · simp only [List.mem_singleton] at hs
      exact hs ▸ ih.1
  | undo_step ht ih =>
    unfold table_tennis.undo
    split
    · next s hlast =>
      exact ⟨ih.2 s (mem_of_getLast? hlast),
        fun x hx => ih.2 x ((List.dropLast_sublist _).subset hx)⟩
    · exact ih
  | mode_step m ht ih =>
    unfold table_tennis.set_game_mode
    split
    · next hz =>
      exact ⟨score_inv_zero _ hz.1 hz.2, ih.2⟩
    · exact ih
  | first_step p ht ih =>
    unfold table_tennis.set_first_serve
    split
    · next hz =>
      exact ⟨score_inv_zero _ hz.1 hz.2, ih.2⟩
    · exact ih

/-- C1: for every reachable engine state and player `X`, `score_point(X)`
increments `X`'s `games_won` by exactly one and resets both scores to zero
exactly when, after the increment of `X`'s score, `X`'s win condition holds
(two-point lead in deuce, otherwise the mode's target reached); in every
other case neither player's `games_won` changes. -/
theorem C1_win_detection (t : table_tennis) (h : Reachable t) (X : serve_player) :
    ((games_won X (score_point X t)._state = games_won X t._state + 1
        ∧ (score_point X t)._state.p1_score = 0
        ∧ (score_point X t)._state.p2_score = 0)
      ↔ win_condition X (add_point X t._state))
    ∧ (¬ win_condition X (add_point X t._state) →
        (score_point X t)._state.p1_games_won = t._state.p1_games_won
        ∧ (score_point X t)._state.p2_games_won = t._state.p2_games_won) := by
  have hspec := check_for_win_spec X t._state (reachable_inv h).1
  rw [score_point_state]
  exact ⟨hspec.1, fun hw => ⟨(hspec.2 hw).1, (hspec.2 hw).2.1⟩⟩

/-- Witness for C1: instantiated at the freshly constructed engine with
player one scoring (no win occurs there). -/
theorem C1_win_detection_witness :
    ((games_won serve_player.p1 (score_point serve_player.p1 tt_init)._state
          = games_won serve_player.p1 tt_init._state + 1
        ∧ (score_point serve_player.p1 tt_init)._state.p1_score = 0
        ∧ (score_point serve_player.p1 tt_init)._state.p2_score = 0)
      ↔ win_condition serve_player.p1 (add_point serve_player.p1 tt_init._state))
    ∧ (¬ win_condition serve_player.p1 (add_point serve_player.p1 tt_init._state) →
        (score_point serve_player.p1 tt_init)._state.p1_games_won
          = tt_init._state.p1_games_won
        ∧ (score_point serve_player.p1 tt_init)._state.p2_games_won
          = tt_init._state.p2_games_won) :=
  C1_win_detection tt_init Reachable.init serve_player.p1

/-- A single configuration call: `set_game_mode` or `set_first_serve`. -/
inductive config_call
  | mode_call (m : game_mode)
  | first_call (p : serve_player)

/-- Apply one configuration call to the engine. -/
def apply_config (c : config_call) (t : table_tennis) : table_tennis :=
  match c with
  | config_call.mode_call m => t.set_game_mode m
  | config_call.first_call p => t.set_first_serve p

/-- Apply a sequence of configuration calls, first element first. -/
def apply_configs : List config_call → table_tennis → table_tennis
  | [], t => t
  | c :: cs, t => apply_configs cs (apply_config c t)

/-- With a nonzero score, one configuration call is a strict no-op. -/
theorem apply_config_locked (c : config_call) (t : table_tennis)
    (h : t._state.p1_score ≠ 0 ∨ t._state.p2_score ≠ 0) :
    apply_config c t = t := by
  have hng : ¬ (t._state.p1_score = 0 ∧ t._state.p2_score = 0) := by
    intro hz
    rcases h with h | h <;> exact h (by simp [hz.1, hz.2])
  cases c <;>
    simp only [apply_config, table_tennis.set_game_mode,
      table_tennis.set_first_serve, if_neg hng]

/-- C8: for every engine state in which some score is nonzero, any sequence of
`set_game_mode` / `set_first_serve` calls, with any arguments, leaves the
whole engine (game state and history) unchanged. -/
theorem C8_config_locked_midgame (t : table_tennis)
    (h : t._state.p1_score ≠ 0 ∨ t._state.p2_score ≠ 0)
    (cs : List config_call) :
    apply_configs cs t = t := by
  induction cs with
  | nil => rfl
  | cons c cs ih =>
    simp only [apply_configs, apply_config_locked c t h, ih]

/-- Witness for C8: a state with score (1, 0) is unchanged by a mode call
followed by a first-serve call. -/
theorem C8_config_locked_midgame_witness :
    apply_configs
      [config_call.mode_call game_mode.to_21,
       config_call.first_call serve_player.p2]
      { _state := { p1_score := 1 }, _history := [] }
    = { _state := { p1_score := 1 }, _history := [] } :=
  C8_config_locked_midgame
    { _state := { p1_score := 1 }, _history := [] }
    (Or.inl (by decide))
    [config_call.mode_call game_mode.to_21,
     config_call.first_call serve_player.p2]

/-- C9: whenever both scores are zero the setters do take effect — the guard
looks only at the two current scores, so configuration is changeable again
right after a game is won mid-match, regardless of `games_won`. -/
theorem C9_config_unlocked_at_zero (t : table_tennis) (m : game_mode)
    (p : serve_player) (h1 : t._state.p1_score = 0) (h2 : t._state.p2_score = 0) :
    t.set_game_mode m = { t with _state := { t._state with mode := m } }
    ∧ t.set_first_serve p
        = { t with _state := { t._state with first_serve := p } } := by
  constructor <;>
    simp only [table_tennis.set_game_mode, table_tennis.set_first_serve,
      if_pos (And.intro h1 h2)]

/-- Witness for C9: with `games_won` nonzero for both players and scores zero,
the setters still update `mode` and `first_serve`. -/
theorem C9_config_unlocked_at_zero_witness :
    table_tennis.set_game_mode
        { _state := { p1_games_won := 5, p2_games_won := 7 }, _history := [] }
        game_mode.to_21
      = { _state := { p1_games_won := 5, p2_games_won := 7,
                      mode := game_mode.to_21 }, _history := [] }
    ∧ table_tennis.set_first_serve
        { _state := { p1_games_won := 5, p2_games_won := 7 }, _history := [] }
        serve_player.p2
      = { _state := { p1_games_won := 5, p2_games_won := 7,
                      first_serve := serve_player.p2 }, _history := [] } :=
  C9_config_unlocked_at_zero
    { _state := { p1_games_won := 5, p2_games_won := 7 }, _history := [] }
    game_mode.to_21 serve_player.p2 rfl rfl

/-- The serve rule exactly as the spec words it: `serve_interval` is 1 during
deuce and otherwise 2 points (to 11) or 5 points (to 21);
`intervals_elapsed = floor((p1_score + p2_score) / serve_interval)`; the
server is `first_serve` when `intervals_elapsed` is even and the other player
when it is odd. -/
def serve_spec (s : game_state) : serve_player :=
  let serve_interval : Nat :=
    if deuce s then 1
    else match s.mode with | game_mode.to_11 => 2 | game_mode.to_21 => 5
  let intervals_elapsed := (s.p1_score + s.p2_score) / serve_interval
  if intervals_elapsed % 2 = 0 then s.first_serve
  else other_player s.first_serve

/-- C4: `serve()` agrees with the spec's interval formula on every state, and
the claim's particular consequences hold: with mode `to_11` and
`first_serve = p1`, player one serves at combined total 0 and 1 and player
two serves at combined total 2; during deuce (any mode) the server flips on
every single point. -/
theorem C4_serve_formula (s : game_state) :
    serve s = serve_spec s
    ∧ (s.mode = game_mode.to_11 → s.first_serve = serve_player.p1 →
        (s.p1_score + s.p2_score ≤ 1 → serve s = serve_player.p1)
        ∧ (s.p1_score + s.p2_score = 2 → serve s = serve_player.p2))
    ∧ (deuce s → ∀ X : serve_player,
        serve (add_point X s) = other_player (serve s)) := by
  obtain ⟨gw1, sc1, gw2, sc2, fs, mode⟩ := s
  refine ⟨?_, ?_, ?_⟩
  · cases fs <;>
      simp only [serve, serve_spec, other_player]
  · rintro rfl rfl
    constructor <;> intro hsum <;>
      simp only [serve, deuce, deuce_points] at * <;>
      split_ifs <;> simp_all <;> omega
  · intro hd X
    cases X <;> cases fs <;> cases mode <;>
      simp only [serve, deuce, deuce_points, add_point, other_player,
        Nat.div_one] at * <;>
      split_ifs <;> first | rfl | omega

/-- Witness for C4: at the deuce state (10, 10) in eleven-point mode the
formula holds, player-two scoring flips the server. -/
theorem C4_serve_formula_witness :
    serve { p1_score := 10, p2_score := 10 }
      = serve_spec { p1_score := 10, p2_score := 10 }
    ∧ serve (add_point serve_player.p2 { p1_score := 10, p2_score := 10 })
      = other_player (serve { p1_score := 10, p2_score := 10 }) :=
  ⟨(C4_serve_formula { p1_score := 10, p2_score := 10 }).1,
   (C4_serve_formula { p1_score := 10, p2_score := 10 }).2.2
     (by decide) serve_player.p2⟩

/-- Apply a sequence of `score_point` calls, first element first. -/
def apply_scores : List serve_player → table_tennis → table_tennis
  | [], t => t
  | X :: ps, t => apply_scores ps (score_point X t)

/-- The pre-call game states pushed by a sequence of scoring calls starting
from state `s`: the state saved by call `k` is the state after `k - 1`
calls. -/
def pre_states : List serve_player → game_state → List game_state
  | [], _ => []
  | X :: ps, s => s :: pre_states ps (check_for_win (add_point X s))

/-- `pre_states` has one entry per scoring call. -/
theorem pre_states_length (ps : List serve_player) :
    ∀ s : game_state, (pre_states ps s).length = ps.length := by
  induction ps with
  | nil => intro s; rfl
  | cons X ps ih => intro s; simp [pre_states, ih]

/-- `score_point` written out on an explicit engine value. -/
theorem score_point_mk (X : serve_player) (s : game_state) (h : List game_state) :
    score_point X { _state := s, _history := h }
      = { _state := check_for_win (add_point X s),
          _history := (if h.length = MAX_UNDO then h.tail else h) ++ [s] } := by
  cases X <;> rfl

/-- After any run of scoring calls the history holds the newest at most
`MAX_UNDO` of the previous-state snapshots (the initial history followed by
the pre-call states), the older ones having been evicted. -/
theorem apply_scores_history (ps : List serve_player) :
    ∀ (s : game_state) (h : List game_state), h.length ≤ MAX_UNDO →
      (apply_scores ps { _state := s, _history := h })._history
        = (h ++ pre_states ps s).drop (h.length + ps.length - MAX_UNDO) := by
  induction ps with
  | nil =>
    intro s h hle
    simp [apply_scores, pre_states, Nat.sub_eq_zero_of_le hle]
  | cons X ps ih =>
    intro s h hle
    rw [show apply_scores (X :: ps) { _state := s, _history := h }
          = apply_scores ps (score_point X { _state := s, _history := h }) from rfl,
        score_point_mk]
    by_cases hfull : h.length = MAX_UNDO
    · obtain ⟨hd, tl, rfl⟩ : ∃ hd tl, h = hd :: tl := by
        cases h with
        | nil => simp [MAX_UNDO] at hfull
        | cons hd tl => exact ⟨hd, tl, rfl⟩
      rw [if_pos hfull, List.tail_cons]
      have htl : (tl ++ [s]).length ≤ MAX_UNDO := by
        simp only [List.length_append, List.length_singleton, List.length_cons,
          List.length_nil, MAX_UNDO] at *
        omega
      rw [ih _ _ htl]
      have e1 : (tl ++ [s]).length + ps.length - MAX_UNDO = ps.length := by
        simp only [List.length_append, List.length_singleton, List.length_cons,
          List.length_nil, MAX_UNDO] at *
        omega
      have e2 : (hd :: tl).length + (X :: ps).length - MAX_UNDO = ps.length + 1 := by
        simp only [List.length_cons, MAX_UNDO] at *
        omega
      rw [e1, e2,
        show pre_states (X :: ps) s
          = s :: pre_states ps (check_for_win (add_point X s)) from rfl,
        List.cons_append, List.drop_succ_cons, List.append_assoc,
        List.singleton_append]
    · rw [if_neg hfull]
      have hle' : (h ++ [s]).length ≤ MAX_UNDO := by
        simp only [List.length_append, List.length_singleton, MAX_UNDO] at *
        omega
      rw [ih _ _ hle']
      have e1 : (h ++ [s]).length + ps.length - MAX_UNDO
          = h.length + (X :: ps).length - MAX_UNDO := by
        simp only [List.length_append, List.length_singleton, List.length_cons,
          List.length_nil, MAX_UNDO]
        omega
      rw [e1, List.append_assoc, List.singleton_append,
        show pre_states (X :: ps) s
          = s :: pre_states ps (check_for_win (add_point X s)) from rfl]

/-- Undoing as many times as the history is long pops every entry, ending with
the oldest history entry as the current state (or the current state itself if
the history is empty). -/
theorem undo_iterate (l : List game_state) :
    ∀ s : game_state,
      (table_tennis.undo^[l.length] { _state := s, _history := l })._state
        = l.head?.getD s := by
  induction l using List.reverseRecOn with
  | nil => intro s; rfl
  | append_singleton l a ih =>
    intro s
    rw [List.length_append, List.length_singleton, Function.iterate_succ_apply,
        show table_tennis.undo { _state := s, _history := l ++ [a] }
          = { _state := a, _history := (l ++ [a]).dropLast } from by
            unfold table_tennis.undo
            rw [List.getLast?_concat],
        List.dropLast_concat, ih a]
    cases l <;> simp

set_option maxRecDepth 4000 in
/-- C3 counterexample: from the freshly constructed engine, 33 consecutive
scoring calls (all by player one) followed by 32 undos do NOT restore the
state as of immediately after the second scoring call — the claim's target
state has `p1_score = 2` while the engine ends at `p1_score = 1`. -/
theorem C3_counterexample :
    (table_tennis.undo^[32]
        (apply_scores (List.replicate 33 serve_player.p1) tt_init))._state
      ≠ (apply_scores
          (List.take 2 (List.replicate 33 serve_player.p1)) tt_init)._state := by
  decide

/-- C3 amended: from the freshly constructed engine, any 33 consecutive
scoring calls followed by 32 undos restore the state as of immediately after
the FIRST scoring call (the evicted oldest snapshot was the pre-first-call
state), which is not the initial all-zero state. -/
theorem C3_history_eviction (ps : List serve_player) (hlen : ps.length = 33) :
    (table_tennis.undo^[32] (apply_scores ps tt_init))._state
      = (apply_scores (ps.take 1) tt_init)._state
    ∧ (table_tennis.undo^[32] (apply_scores ps tt_init))._state
      ≠ initial_state := by
  cases ps with
  | nil => simp at hlen
  | cons X ps' =>
    have hps' : ps'.length = 32 := by
      simp only [List.length_cons] at hlen
      omega
    have hh : (apply_scores (X :: ps') tt_init)._history
        = pre_states ps' (check_for_win (add_point X initial_state)) := by
      rw [show tt_init = { _state := initial_state, _history := [] } from rfl,
        apply_scores_history (X :: ps') initial_state [] (by simp [MAX_UNDO])]
      simp [pre_states, pre_states_length, hps', MAX_UNDO]
    have hlen2 : (apply_scores (X :: ps') tt_init)._history.length = 32 := by
      rw [hh, pre_states_length, hps']
    have key : (table_tennis.undo^[32] (apply_scores (X :: ps') tt_init))._state
        = (apply_scores (X :: ps') tt_init)._history.head?.getD
            (apply_scores (X :: ps') tt_init)._state := by
      conv_lhs =>
        rw [show (32 : Nat) = (apply_scores (X :: ps') tt_init)._history.length
              from hlen2.symm]
      exact undo_iterate _ _
    obtain ⟨Y, ps'', rfl⟩ : ∃ Y ps'', ps' = Y :: ps'' := by
      cases ps' with
      | nil => simp at hps'
      | cons Y ps'' => exact ⟨Y, ps'', rfl⟩
    rw [key, hh]
    rw [show pre_states (Y :: ps'') (check_for_win (add_point X initial_state))
          = check_for_win (add_point X initial_state)
            :: pre_states ps'' (check_for_win (add_point Y
                (check_for_win (add_point X initial_state)))) from rfl]
    simp only [List.head?_cons, Option.getD_some]
    constructor
    · rw [show (X :: Y :: ps'').take 1 = [X] from rfl,
        show apply_scores [X] tt_init = score_point X tt_init from rfl,
        score_point_state]
      rfl
    · cases X <;> decide

/-- Witness for C3's amended statement: the all-player-one run of 33 calls
then 32 undos ends at the state after the first call, score (1, 0). -/
theorem C3_history_eviction_witness :
    (table_tennis.undo^[32]
        (apply_scores (List.replicate 33 serve_player.p1) tt_init))._state
      = (apply_scores
          (List.take 1 (List.replicate 33 serve_player.p1)) tt_init)._state
    ∧ (table_tennis.undo^[32]
        (apply_scores (List.replicate 33 serve_player.p1) tt_init))._state
      ≠ initial_state :=
  C3_history_eviction (List.replicate 33 serve_player.p1) (by decide)

/-- Segment bitmask `SEG_A` of `avr_io.hpp`. -/
def SEG_A : Nat := 1

/-- Segment bitmask `SEG_B` of `avr_io.hpp`. -/
def SEG_B : Nat := 2

/-- Segment bitmask `SEG_C` of `avr_io.hpp`. -/
def SEG_C : Nat := 4

/-- Segment bitmask `SEG_D` of `avr_io.hpp`. -/
def SEG_D : Nat := 8

/-- Segment bitmask `SEG_E` of `avr_io.hpp`. -/
def SEG_E : Nat := 16

/-- Segment bitmask `SEG_F` of `avr_io.hpp`. -/
def SEG_F : Nat := 32

/-- Segment bitmask `SEG_G` of `avr_io.hpp`. -/
def SEG_G : Nat := 64

/-- Segment bitmask `SEG_DP` (decimal point) of `avr_io.hpp`. -/
def SEG_DP : Nat := 128

/-- The sixteen-entry seven-segment glyph table `SEVSEG` of `avr_io.hpp`
(decimal digits 0-9 plus hexadecimal A-F). -/
def SEVSEG : List Nat :=
  [SEG_A ||| SEG_B ||| SEG_C ||| SEG_D ||| SEG_E ||| SEG_F,
   SEG_B ||| SEG_C,
   SEG_A ||| SEG_B ||| SEG_D ||| SEG_E ||| SEG_G,
   SEG_A ||| SEG_B ||| SEG_C ||| SEG_D ||| SEG_G,
   SEG_B ||| SEG_C ||| SEG_F ||| SEG_G,
   SEG_A ||| SEG_C ||| SEG_D ||| SEG_F ||| SEG_G,
   SEG_C ||| SEG_D ||| SEG_E ||| SEG_F ||| SEG_G,
   SEG_A ||| SEG_B ||| SEG_C,
   SEG_A ||| SEG_B ||| SEG_C ||| SEG_D ||| SEG_E ||| SEG_F ||| SEG_G,
   SEG_A ||| SEG_B ||| SEG_C ||| SEG_F ||| SEG_G,
   SEG_A ||| SEG_B ||| SEG_C ||| SEG_E ||| SEG_F ||| SEG_G,
   SEG_C ||| SEG_D ||| SEG_E ||| SEG_F ||| SEG_G,
   SEG_A ||| SEG_D ||| SEG_E ||| SEG_F,
   SEG_B ||| SEG_C ||| SEG_D ||| SEG_E ||| SEG_G,
   SEG_A ||| SEG_D ||| SEG_E ||| SEG_F ||| SEG_G,
   SEG_A ||| SEG_E ||| SEG_F ||| SEG_G]

/-- One write to an output pin of the display wiring: either one of the eight
shared segment pins, or one of the digit-select pins. -/
inductive pin_event
  | seg_set (i : Nat) (high : Bool)
  | digit_set (i : Nat) (high : Bool)
deriving DecidableEq

/-- Pin writes of `avr_seven_segment_display::clear_digits`: every digit
select pin of the `N`-digit display is driven low. -/
def clear_digits (N : Nat) : List pin_event :=
  (List.range N).map (fun i => pin_event.digit_set i false)

/-- Pin writes of `avr_seven_segment_pins::display_custom(mask)`: each of the
eight segment pins is driven to its bit of `mask`
(`_segs[i]->set(mask & (1 << i))`). -/
def pins_display_custom (mask : Nat) : List pin_event :=
  (List.range 8).map (fun i => pin_event.seg_set i (mask.testBit i))

/-- Pin writes of `avr_seven_segment_display<N>::display_custom(mask, digit)`:
when the bounds check `digit <= num_digits_t` passes, all digit selects are
cleared, the segment pattern is written, and digit select `digit` is driven
high; otherwise nothing is written. -/
def display_custom (N : Nat) (mask digit : Nat) : List pin_event :=
  if digit ≤ N then
    clear_digits N ++ pins_display_custom mask ++ [pin_event.digit_set digit true]
  else []

/-- C5 counterexample: on the 2-digit display, `display_custom` with the
out-of-range digit index 2 is NOT a no-op — the bounds check uses `<=`, so
the call clears the digit selects, writes the segment pattern, and drives the
out-of-range digit select 2. -/
theorem C5_counterexample : display_custom 2 SEG_A 2 ≠ [] := by decide

/-- C5 amended: `display_custom(mask, digit)` is a silent no-op for every
digit index strictly beyond `N` (`digit > N`), while at the boundary
`digit = N` (also out of range) the `<=` check erroneously passes and the
call performs its writes, ending by driving the out-of-range digit-select
index `N`. -/
theorem C5_display_custom_bounds (N mask digit : Nat) (h : N < digit) :
    display_custom N mask digit = []
    ∧ display_custom N mask N
        = clear_digits N ++ pins_display_custom mask
            ++ [pin_event.digit_set N true] := by
  constructor
  · rw [display_custom, if_neg (by omega)]
  · rw [display_custom, if_pos (le_refl N)]

/-- Witness for C5's amended statement at the 2-digit display with digit
index 3. -/
theorem C5_display_custom_bounds_witness :
    display_custom 2 SEG_A 3 = []
    ∧ display_custom 2 SEG_A 2
        = clear_digits 2 ++ pins_display_custom SEG_A
            ++ [pin_event.digit_set 2 true] :=
  C5_display_custom_bounds 2 SEG_A 3 (by decide)

/-- Glyph mask selected by `avr_seven_segment_pins::display_decimal(number)`:
`SEVSEG[number % 10]`. -/
def pins_decimal_mask (number : Nat) : Nat :=
  SEVSEG.getD (number % 10) 0

/-- Per-digit loop body of
`avr_seven_segment_display<N>::display_decimal(number, decimal_point)`:
for each digit (index `i`, least significant first) the glyph held while that
digit's select pin is high is computed from the remaining `number`; `number`
is divided by 10 only in the nonzero branch, exactly as in the source.
Returns the list of held segment patterns, index 0 first. -/
def display_decimal_go (decimal_point : Int) : Nat → Nat → Nat → List Nat
  | 0, _, _ => []
  | fuel + 1, i, number =>
    let base :=
      if number ≠ 0 then pins_decimal_mask (number % 10)
      else if i = 0 ∨ (0 ≤ decimal_point ∧ (i : Int) ≤ decimal_point) then
        pins_decimal_mask 0
      else 0
    let shown := if (i : Int) = decimal_point then base ||| SEG_DP else base
    shown :: display_decimal_go decimal_point fuel (i + 1)
      (if number ≠ 0 then number / 10 else number)

/-- Segment patterns held on digits `0 .. N-1` by
`avr_seven_segment_display<N>::display_decimal(number, decimal_point)`
(the default `decimal_point` being `-1`). -/
def display_decimal (N : Nat) (number : Nat) (decimal_point : Int) : List Nat :=
  display_decimal_go decimal_point N 0 number

/-- The renderer emits one pattern per digit of the display. -/
theorem display_decimal_go_length (decimal_point : Int) :
    ∀ (fuel i number : Nat),
      (display_decimal_go decimal_point fuel i number).length = fuel := by
  intro fuel
  induction fuel with
  | zero => intro i number; rfl
  | succ n ih =>
    intro i number
    simp only [display_decimal_go, List.length_cons, ih]


/-- Closed form of the per-digit loop: the entry at offset `j` is computed
from `number / 10 ^ j` at digit index `i0 + j`. -/
theorem display_decimal_go_getD (decimal_point : Int) :
    ∀ (fuel j i0 number : Nat), j < fuel →
      (display_decimal_go decimal_point fuel i0 number).getD j 0
        = (let base :=
             if number / 10 ^ j ≠ 0 then
               pins_decimal_mask ((number / 10 ^ j) % 10)
             else if i0 + j = 0
                 ∨ (0 ≤ decimal_point ∧ ((i0 + j : Nat) : Int) ≤ decimal_point) then
               pins_decimal_mask 0
             else 0
           if ((i0 + j : Nat) : Int) = decimal_point then base ||| SEG_DP
           else base) := by
  intro fuel
  induction fuel with
  | zero => intro j i0 number hj; omega
  | succ n ih =>
    intro j i0 number hj
    cases j with
    | zero =>
      simp only [display_decimal_go, List.getD_cons_zero, pow_zero,
        Nat.div_one, Nat.add_zero]
    | succ j =>
      have hj' : j < n := by omega
      have hdiv : (if number ≠ 0 then number / 10 else number) = number / 10 := by
        by_cases hz : number = 0
        · simp [hz]
        · rw [if_pos hz]
      simp only [display_decimal_go, List.getD_cons_succ]
      rw [hdiv, ih j (i0 + 1) (number / 10) hj']
      have e1 : number / 10 / 10 ^ j = number / 10 ^ (j + 1) := by
        rw [Nat.div_div_eq_div_mul, pow_succ, mul_comm (10 ^ j) 10]
      have e2 : i0 + 1 + j = i0 + (j + 1) := by omega
      rw [e1, e2]

/-- C7: for an `N`-digit display and a `uint8_t` value, the pattern held on
digit `i` is the glyph of `(remaining value) mod 10` while the remaining
value (`value / 10^i`) is nonzero; otherwise the glyph for 0 when `i = 0` or
when a decimal point is requested and `i ≤ decimal_point`; otherwise blank —
with the decimal-point segment OR-ed in on digit `decimal_point`.  Leading
zeros are thus suppressed everywhere except the least-significant digit and
the run of digits up to and including the decimal-point digit. -/
theorem C7_display_decimal_digits (N number : Nat) (decimal_point : Int)
    (i : Nat) (_h8 : number < 256) (hi : i < N) :
    (display_decimal N number decimal_point).getD i 0
      = (let base :=
           if number / 10 ^ i ≠ 0 then
             pins_decimal_mask ((number / 10 ^ i) % 10)
           else if i = 0 ∨ (0 ≤ decimal_point ∧ (i : Int) ≤ decimal_point) then
             pins_decimal_mask 0
           else 0
         if (i : Int) = decimal_point then base ||| SEG_DP else base) := by
  have h := display_decimal_go_getD decimal_point N i 0 number hi
  simpa only [Nat.zero_add] using h

/-- Witness for C7: the 2-digit display showing 7 with no decimal point has a
blank tens digit. -/
theorem C7_display_decimal_digits_witness :
    (display_decimal 2 7 (-1)).getD 1 0
      = (let base :=
           if 7 / 10 ^ 1 ≠ 0 then
             pins_decimal_mask ((7 / 10 ^ 1) % 10)
           else if 1 = 0 ∨ (0 ≤ (-1 : Int) ∧ (1 : Int) ≤ (-1 : Int)) then
             pins_decimal_mask 0
           else 0
         if (1 : Int) = (-1 : Int) then base ||| SEG_DP else base) :=
  C7_display_decimal_digits 2 7 (-1) 1 (by decide) (by decide)

/-- Digit-extraction helper: taking the value modulo `10 ^ N` does not change
any of the `N` low decimal digits. -/
theorem digit_mod_pow (number N i : Nat) (hi : i < N) :
    (number / 10 ^ i) % 10 = ((number % 10 ^ N) / 10 ^ i) % 10 := by
  obtain ⟨k, hk⟩ : ∃ k, N = i + (k + 1) := ⟨N - i - 1, by omega⟩
  subst hk
  conv_lhs => rw [← Nat.div_add_mod number (10 ^ (i + (k + 1)))]
  rw [pow_add 10 i (k + 1),
    show 10 ^ i * 10 ^ (k + 1) * (number / (10 ^ i * 10 ^ (k + 1)))
      = 10 ^ i * (10 ^ (k + 1) * (number / (10 ^ i * 10 ^ (k + 1)))) from by ring,
    Nat.mul_add_div (Nat.pos_pow_of_pos i (by norm_num)),
    pow_succ 10 k,
    show 10 ^ k * 10 * (number / (10 ^ i * (10 ^ k * 10)))
      = 10 * (10 ^ k * (number / (10 ^ i * (10 ^ k * 10)))) from by ring,
    Nat.mul_add_mod]

/-- C10: for an `N`-digit display and a `uint8_t` value at least `10 ^ N`,
`display_decimal(value)` (no decimal point) runs its digit loop exactly `N`
times and shows on every digit the glyph of the corresponding digit of
`value`, i.e. the glyphs of the `N` least-significant decimal digits — the
digits of `value mod 10^N` — and the remaining quotient is discarded. -/
theorem C10_display_decimal_truncates (N number i : Nat)
    (_h8 : number < 256) (hbig : 10 ^ N ≤ number) (hi : i < N) :
    (display_decimal N number (-1)).length = N
    ∧ (display_decimal N number (-1)).getD i 0
        = pins_decimal_mask ((number / 10 ^ i) % 10)
    ∧ (number / 10 ^ i) % 10 = ((number % 10 ^ N) / 10 ^ i) % 10 := by
  refine ⟨display_decimal_go_length (-1) N 0 number, ?_, digit_mod_pow number N i hi⟩
  have h := display_decimal_go_getD (-1) N i 0 number hi
  simp only [Nat.zero_add] at h
  rw [display_decimal, h]
  have hrem : number / 10 ^ i ≠ 0 := by
    have h1 : 10 ^ i ≤ number := le_trans (Nat.pow_le_pow_right (by norm_num) (by omega)) hbig
    have h2 : 1 ≤ number / 10 ^ i :=
      (Nat.one_le_div_iff (Nat.pos_pow_of_pos i (by norm_num : 0 < 10))).mpr h1
    omega
  rw [if_neg (by omega : ¬ ((i : Nat) : Int) = (-1 : Int)), if_pos hrem]

/-- Witness for C10: the 2-digit display asked to show 123 (a `uint8_t`
value above 99) shows the glyphs of 2 and 3, the digits of 123 mod 100. -/
theorem C10_display_decimal_truncates_witness :
    (display_decimal 2 123 (-1)).length = 2
    ∧ (display_decimal 2 123 (-1)).getD 1 0
        = pins_decimal_mask ((123 / 10 ^ 1) % 10)
    ∧ (123 / 10 ^ 1) % 10 = ((123 % 10 ^ 2) / 10 ^ 1) % 10 :=
  C10_display_decimal_truncates 2 123 1 (by decide) (by decide) (by decide)

/-- `avr_button::action`: no change, just changed to pressed, or just changed
to released (also used as the classified state of one raw sample). -/
inductive avr_button.action
  | none
  | pressed
  | released
deriving DecidableEq

/-- The mutable data of an `avr_button`: the `uint8_t` write counter, the
three-slot ring buffer `_states[3]`, and the latched stable state
`_current_action`. -/
structure avr_button where
  _counter : Nat
  _states : avr_button.action × avr_button.action × avr_button.action
  _current_action : avr_button.action
deriving DecidableEq

/-- A freshly constructed `avr_button` (counter 0, all slots and the latched
state `released`, per the C++ member initializers). -/
def avr_button.init : avr_button :=
  { _counter := 0,
    _states := (avr_button.action.released, avr_button.action.released,
                avr_button.action.released),
    _current_action := avr_button.action.released }

/-- Classification of one raw pin sample in `avr_button::check`: with a
pull-up the logic is reversed (high reading means released). -/
def avr_button.classify (pull_up raw : Bool) : avr_button.action :=
  if pull_up then
    if raw then avr_button.action.released else avr_button.action.pressed
  else
    if raw then avr_button.action.pressed else avr_button.action.released

/-- Writing slot `idx` of the three-slot ring buffer
(`_states[_counter % 3] = ...`). -/
def avr_button.store
    (states : avr_button.action × avr_button.action × avr_button.action)
    (idx : Nat) (v : avr_button.action) :
    avr_button.action × avr_button.action × avr_button.action :=
  if idx = 0 then (v, states.2.1, states.2.2)
  else if idx = 1 then (states.1, v, states.2.2)
  else (states.1, states.2.1, v)

/-- The ring-buffer contents right after `check` stores the new sample. -/
def stored_states (pull_up raw : Bool) (b : avr_button) :
    avr_button.action × avr_button.action × avr_button.action :=
  avr_button.store b._states (b._counter % 3) (avr_button.classify pull_up raw)

/-- `avr_button::check`: store the classified sample at slot `_counter % 3`,
increment the `uint8_t` counter (wrapping at 256); if the three slots agree
and the agreed state differs from the latched `_current_action` in the
pressed/released sense, latch it and return the corresponding edge; in every
other case return `action::none`. -/
def avr_button.check (pull_up raw : Bool) (b : avr_button) :
    avr_button.action × avr_button :=
  let states := stored_states pull_up raw b
  let b1 : avr_button :=
    { _counter := (b._counter + 1) % 256, _states := states,
      _current_action := b._current_action }
  if states.1 = states.2.1 ∧ states.2.1 = states.2.2 then
    let new_action := states.1
    if new_action = avr_button.action.pressed
        ∧ b1._current_action = avr_button.action.released then
      (avr_button.action.pressed, { b1 with _current_action := new_action })
    else if new_action = avr_button.action.released
        ∧ b1._current_action = avr_button.action.pressed then
      (avr_button.action.released, { b1 with _current_action := new_action })
    else (avr_button.action.none, b1)
  else (avr_button.action.none, b1)

/-- Button states reachable from construction by any sequence of raw
samples. -/
inductive BtnReachable (pull_up : Bool) : avr_button → Prop
  | init : BtnReachable pull_up avr_button.init
  | step {b : avr_button} (raw : Bool) :
      BtnReachable pull_up b →
      BtnReachable pull_up (avr_button.check pull_up raw b).2

/-- Invariant of reachable buttons: neither the ring-buffer slots nor the
latched state ever hold `action::none`. -/
def btn_inv (b : avr_button) : Prop :=
  b._states.1 ≠ avr_button.action.none
  ∧ b._states.2.1 ≠ avr_button.action.none
  ∧ b._states.2.2 ≠ avr_button.action.none
  ∧ b._current_action ≠ avr_button.action.none

instance (b : avr_button) : Decidable (btn_inv b) :=
  inferInstanceAs (Decidable (_ ∧ _))

/-- One `check` call preserves the button invariant. -/
theorem btn_inv_check (pull_up raw : Bool) (b : avr_button) (h : btn_inv b) :
    btn_inv (avr_button.check pull_up raw b).2 := by
  obtain ⟨ctr, ⟨s0, s1, s2⟩, cur⟩ := b
  obtain ⟨h0, h1, h2, hc⟩ := h
  have h3 : ctr % 3 = 0 ∨ ctr % 3 = 1 ∨ ctr % 3 = 2 := by omega
  cases s0 <;> cases s1 <;> cases s2 <;> cases cur <;>
    simp_all <;>
    cases pull_up <;> cases raw <;>
    rcases h3 with h3 | h3 | h3 <;>
    simp_all [avr_button.check, avr_button.classify, stored_states,
      avr_button.store, btn_inv]

/-- Every reachable button satisfies the invariant. -/
theorem btn_reachable_inv {pull_up : Bool} {b : avr_button}
    (h : BtnReachable pull_up b) : btn_inv b := by
  induction h with
  | init => decide
  | step raw _ ih => exact btn_inv_check _ raw _ ih

/-- C6: on every reachable button state, one `check` call returns a non-none
edge exactly when, after the new sample is stored, all three ring-buffer
slots agree and the agreed state differs from the latched state; in that case
the latched state is updated to the agreed state, with `pressed` returned
exactly on a released-to-pressed change and `released` exactly on a
pressed-to-released change; in every other case `none` is returned and the
latched state is unchanged. -/
theorem C6_debounce_edges (pull_up raw : Bool) (b : avr_button)
    (h : BtnReachable pull_up b) :
    ((avr_button.check pull_up raw b).1 ≠ avr_button.action.none
      ↔ ((stored_states pull_up raw b).1 = (stored_states pull_up raw b).2.1
         ∧ (stored_states pull_up raw b).2.1 = (stored_states pull_up raw b).2.2
         ∧ (stored_states pull_up raw b).1 ≠ b._current_action))
    ∧ ((avr_button.check pull_up raw b).1 ≠ avr_button.action.none →
        (avr_button.check pull_up raw b).2._current_action
            = (stored_states pull_up raw b).1
        ∧ ((avr_button.check pull_up raw b).1 = avr_button.action.pressed
            ↔ b._current_action = avr_button.action.released
              ∧ (stored_states pull_up raw b).1 = avr_button.action.pressed)
        ∧ ((avr_button.check pull_up raw b).1 = avr_button.action.released
            ↔ b._current_action = avr_button.action.pressed
              ∧ (stored_states pull_up raw b).1 = avr_button.action.released))
    ∧ ((avr_button.check pull_up raw b).1 = avr_button.action.none →
        (avr_button.check pull_up raw b).2._current_action
          = b._current_action) := by
  have hinv := btn_reachable_inv h
  obtain ⟨ctr, ⟨s0, s1, s2⟩, cur⟩ := b
  obtain ⟨h0, h1, h2, hc⟩ := hinv
  have h3 : ctr % 3 = 0 ∨ ctr % 3 = 1 ∨ ctr % 3 = 2 := by omega
  cases s0 <;> cases s1 <;> cases s2 <;> cases cur <;>
    simp_all <;>
    cases pull_up <;> cases raw <;>
    rcases h3 with h3 | h3 | h3 <;>
    simp_all [avr_button.check, avr_button.classify, stored_states,
      avr_button.store]

/-- Witness for C6: one high sample on a freshly constructed pull-up button
(classified `released`, agreeing with the latched state) returns `none` and
leaves the latched state `released`. -/
theorem C6_debounce_edges_witness :
    ((avr_button.check true true avr_button.init).1 ≠ avr_button.action.none
      ↔ ((stored_states true true avr_button.init).1
            = (stored_states true true avr_button.init).2.1
         ∧ (stored_states true true avr_button.init).2.1
            = (stored_states true true avr_button.init).2.2
         ∧ (stored_states true true avr_button.init).1
            ≠ avr_button.init._current_action))
    ∧ ((avr_button.check true true avr_button.init).1 ≠ avr_button.action.none →
        (avr_button.check true true avr_button.init).2._current_action
            = (stored_states true true avr_button.init).1
        ∧ ((avr_button.check true true avr_button.init).1
              = avr_button.action.pressed
            ↔ avr_button.init._current_action = avr_button.action.released
              ∧ (stored_states true true avr_button.init).1
                  = avr_button.action.pressed)
        ∧ ((avr_button.check true true avr_button.init).1
              = avr_button.action.released
            ↔ avr_button.init._current_action = avr_button.action.pressed
              ∧ (stored_states true true avr_button.init).1
                  = avr_button.action.released))
    ∧ ((avr_button.check true true avr_button.init).1 = avr_button.action.none →
        (avr_button.check true true avr_button.init).2._current_action
          = avr_button.init._current_action) :=
  C6_debounce_edges true true avr_button.init BtnReachable.init
